import Mathlib

/-!
Verification development for the HDF5 → Unity volume exporters
(`export_h5_to_mhd.py` and `h5_to_unity_volumes.py`).

Arrays are embedded shallowly: a 3D (resp. 4D) array is a triple (resp.
quadruple) of extents together with a total indexing function into ℚ;
only indices below the extents are meaningful.  Floating-point values are
modelled as exact rationals; a floating-point division that could produce
a non-finite value is modelled by `safeDiv`, which returns `none` exactly
when the denominator is zero.
-/

namespace H5Export

/-- The epsilon constant `EPS = 1e-6` of `export_h5_to_mhd.py` (the same
literal `1e-6` appears in `h5_to_unity_volumes.py`). -/
def EPS : ℚ := 1 / 1000000

/-- `np.clip(v, lo, hi)`, i.e. `min (max v lo) hi`. -/
def clip (v lo hi : ℚ) : ℚ := min (max v lo) hi

/-- A 3D array: extents `s0 s1 s2` and a total indexing function. -/
structure Arr3 where
  s0 : ℕ
  s1 : ℕ
  s2 : ℕ
  data : ℕ → ℕ → ℕ → ℚ

/-- A 4D array: extents `s0 s1 s2 s3` and a total indexing function. -/
structure Arr4 where
  s0 : ℕ
  s1 : ℕ
  s2 : ℕ
  s3 : ℕ
  data : ℕ → ℕ → ℕ → ℕ → ℚ

/-- Checked division: `none` when the denominator is zero.  This models the
floating-point division whose result would be non-finite (NaN/inf) on a
zero denominator. -/
def safeDiv (a b : ℚ) : Option ℚ := if b = 0 then none else some (a / b)

/-- Mean of the first `N` samples of the time series of a voxel
(`data[:N].mean(axis=0)` at one voxel). -/
def meanFirstN (N : ℕ) (u : ℕ → ℚ) : ℚ := (∑ t in Finset.range N, u t) / N

/-- The baseline guard of `export_h5_to_mhd.py`, line
`baseline = np.where(np.abs(baseline) < EPS, EPS, baseline)`. -/
def guardBaseline (b : ℚ) : ℚ := if |b| < EPS then EPS else b

/-- The guard as worded by the spec: substitute epsilon carrying the
sign of the baseline itself (positive epsilon when the baseline is exactly zero). -/
def guardBaselineSpec (b : ℚ) : ℚ :=
  if |b| < EPS then (if b < 0 then -EPS else EPS) else b

/-- Per-voxel PSC of `export_h5_to_mhd.py`:
`psc = 100.0 * (data - baseline) / baseline` after the `np.where` guard. -/
def pscVoxelExport (N : ℕ) (u : ℕ → ℚ) (t : ℕ) : ℚ :=
  100 * (u t - guardBaseline (meanFirstN N u)) / guardBaseline (meanFirstN N u)

/-- Checked variant of `pscVoxelExport` exposing the division. -/
def pscVoxelExportChecked (N : ℕ) (u : ℕ → ℚ) (t : ℕ) : Option ℚ :=
  safeDiv (100 * (u t - guardBaseline (meanFirstN N u)))
    (guardBaseline (meanFirstN N u))

/-- Per-voxel PSC of `h5_to_unity_volumes.py`:
`psc = 100.0 * (data_norm - baseline) / (baseline + eps)`. -/
def pscVoxelUnity (N : ℕ) (u : ℕ → ℚ) (t : ℕ) : ℚ :=
  100 * (u t - meanFirstN N u) / (meanFirstN N u + EPS)

/-- Checked variant of `pscVoxelUnity` exposing the division. -/
def pscVoxelUnityChecked (N : ℕ) (u : ℕ → ℚ) (t : ℕ) : Option ℚ :=
  safeDiv (100 * (u t - meanFirstN N u)) (meanFirstN N u + EPS)

/-- Raw-mode rescale of `export_h5_to_mhd.py`
(`norm = (data - lo) / max(hi - lo, EPS)` after `np.clip(data, lo, hi)`),
with the division checked. -/
def rawNormChecked (lo hi v : ℚ) : Option ℚ :=
  safeDiv (clip v lo hi - lo) (max (hi - lo) EPS)

/-- PSC→[0,1] map of `h5_to_unity_volumes.py`:
`psc01 = np.clip((psc + pr) / (2*pr), 0.0, 1.0)`. -/
def psc01Unity (pr p : ℚ) : ℚ := clip ((p + pr) / (2 * pr)) 0 1

/-- Clamp-and-rescale of `export_h5_to_mhd.py` psc mode:
`psc = np.clip(psc, cmin, cmax); norm = (psc - vmin) / max(vmax - vmin, EPS)`. -/
def pscRescaleExport (cmin cmax p : ℚ) : ℚ :=
  (clip p cmin cmax - cmin) / max (cmax - cmin) EPS

/-- Quantizer of `h5_to_unity_volumes.py` (`to_uint8`): clip the rescaled
value to [0,1], multiply by 255, add 0.5, truncate (round-half-up). -/
def to_uint8 (v vmin vmax : ℚ) : ℤ :=
  ⌊clip ((v - vmin) / (vmax - vmin)) 0 1 * 255 + 1 / 2⌋

/-- Quantizer of `export_h5_to_mhd.py`: clip the value into the window,
rescale with the epsilon-floored denominator, scale to 255, clip to
[0,255], truncate (`astype(np.uint8)` on a nonnegative value). -/
def quantTruncExport (vmin vmax v : ℚ) : ℤ :=
  ⌊clip ((clip v vmin vmax - vmin) / max (vmax - vmin) EPS * 255) 0 255⌋

/-- The sort step of `np.percentile`: the flattened data in ascending order. -/
def sortQ (l : List ℚ) : List ℚ := List.insertionSort (· ≤ ·) l

/-- The linear-interpolation lookup of `np.percentile` at fractional
position `pos` into the sorted list `s`. -/
def interpAt (s : List ℚ) (pos : ℚ) : ℚ :=
  if ⌊pos⌋₊ + 1 < s.length then
    s.getD ⌊pos⌋₊ 0 +
      (pos - (⌊pos⌋₊ : ℚ)) * (s.getD (⌊pos⌋₊ + 1) 0 - s.getD ⌊pos⌋₊ 0)
  else s.getD (s.length - 1) 0

/-- `np.percentile(l, q)` with the default linear interpolation: the value
at position `q/100 * (n-1)` into the sorted data. -/
def percentile (q : ℚ) (l : List ℚ) : ℚ :=
  if l.length = 0 then 0
  else interpAt (sortQ l) (q / 100 * ((l.length : ℚ) - 1))

/-- `percentile_window` of `h5_to_unity_volumes.py`: the `(lo, hi)`
percentile window, widened by `1e-6` when degenerate. -/
def percentile_window (l : List ℚ) (lo hi : ℚ) : ℚ × ℚ :=
  let lo_v := percentile lo l
  let hi_v := percentile hi l
  if hi_v ≤ lo_v then (lo_v, lo_v + EPS) else (lo_v, hi_v)

/-- Raw-mode normalization of `export_h5_to_mhd.py` over the flattened
series: clip to the 1/99 percentile window, rescale by the epsilon-floored
width. -/
def rawNormalizeExport (l : List ℚ) : List ℚ :=
  let lo := percentile 1 l
  let hi := percentile 99 l
  l.map fun v => (clip v lo hi - lo) / max (hi - lo) EPS

/-- Arithmetic mean of a list. -/
def listMean (l : List ℚ) : ℚ := l.sum / l.length

/-- The `f³` source samples of one mean-pooling block, as produced by the
`reshape(z//f, f, y//f, f, x//f, f)` view of `block_reduce_mean`. -/
def blockElems (vol : Arr3) (f i j k : ℕ) : List ℚ :=
  (List.range f).flatMap fun a =>
    (List.range f).flatMap fun b =>
      (List.range f).map fun c => vol.data (i * f + a) (j * f + b) (k * f + c)

/-- `block_reduce_mean` of `export_h5_to_mhd.py`: identity for `f ≤ 1`,
mean pooling when all extents are divisible by `f`, stride subsampling
otherwise. -/
def block_reduce_mean (vol : Arr3) (f : ℕ) : Arr3 :=
  if f ≤ 1 then vol
  else if vol.s0 % f = 0 ∧ vol.s1 % f = 0 ∧ vol.s2 % f = 0 then
    ⟨vol.s0 / f, vol.s1 / f, vol.s2 / f,
      fun i j k => listMean (blockElems vol f i j k)⟩
  else
    ⟨(vol.s0 + f - 1) / f, (vol.s1 + f - 1) / f, (vol.s2 + f - 1) / f,
      fun i j k => vol.data (i * f) (j * f) (k * f)⟩

/-- `np.moveaxis(data, src, 0)` on a 4D array: the source axis becomes
axis 0 and the remaining axes keep their source order. -/
def moveaxisFront (a : Arr4) (src : ℕ) : Arr4 :=
  match src with
  | 0 => a
  | 1 => ⟨a.s1, a.s0, a.s2, a.s3, fun i0 i1 i2 i3 => a.data i1 i0 i2 i3⟩
  | 2 => ⟨a.s2, a.s0, a.s1, a.s3, fun i0 i1 i2 i3 => a.data i1 i2 i0 i3⟩
  | _ => ⟨a.s3, a.s0, a.s1, a.s2, fun i0 i1 i2 i3 => a.data i1 i2 i3 i0⟩

/-- `np.argmax` on a quadruple of extents: the first index attaining the
maximum. -/
def argmax4 (a b c d : ℕ) : ℕ :=
  if b ≤ a ∧ c ≤ a ∧ d ≤ a then 0
  else if c ≤ b ∧ d ≤ b then 1
  else if d ≤ c then 2
  else 3

/-- Extent of axis `i` of a 4D array. -/
def extent (a : Arr4) (i : ℕ) : ℕ :=
  if i = 0 then a.s0 else if i = 1 then a.s1 else if i = 2 then a.s2 else a.s3

/-- The shape heuristic of `h5_to_unity_volumes.py` that decides which
axis is time: lines 78–90 of `main`. -/
def resolveAxesHeuristic (a : Arr4) : Arr4 :=
  if a.s0 < 16 ∧ 32 < a.s3 then moveaxisFront a 3
  else if 16 ≤ a.s0 ∧ a.s3 < 16 then a
  else
    if argmax4 a.s0 a.s1 a.s2 a.s3 ≠ 0 then
      moveaxisFront a (argmax4 a.s0 a.s1 a.s2 a.s3)
    else a

/-- Export mode of `export_h5_to_mhd.py` (`--mode`). -/
inductive Mode where
  | raw : Mode
  | psc : Mode

/-- The configuration record consumed by the export pipeline of
`export_h5_to_mhd.py` (clamp already parsed into two rationals). -/
structure ExportCfg where
  time_axis : ℤ
  mode : Mode
  baselineN : ℤ
  clampLo : ℚ
  clampHi : ℚ
  downsample : ℤ

/-- Pipeline stages, recorded in execution order. -/
inductive Step where
  | transposeStep : Step
  | reorderStep : Step
  | downsampleStep : Step
  | normalizeStep : Step
  | writeStep : Step

/-- The fatal errors the export pipeline can raise (Python
`ValueError`s; the spec calls them `ConfigurationError`). -/
inductive ExpErr where
  | configError : String → ExpErr

/-- A quantized (uint8-valued) 4D output volume. -/
structure QVol where
  s0 : ℕ
  s1 : ℕ
  s2 : ℕ
  s3 : ℕ
  data : ℕ → ℕ → ℕ → ℕ → ℤ

/-- `np.argmin` on a triple of spatial extents: first index attaining the
minimum. -/
def argmin3 (a b c : ℕ) : ℕ :=
  if a ≤ b ∧ a ≤ c then 0 else if b ≤ c then 1 else 2

/-- Move spatial axis `src` (0-based among the three spatial axes) to the
spatial front, matching `data.transpose([0, 1+order_map[0], 1+order_map[1],
1+order_map[2]])`. -/
def spatialMoveFront (a : Arr4) (src : ℕ) : Arr4 :=
  match src with
  | 0 => a
  | 1 => ⟨a.s0, a.s2, a.s1, a.s3, fun t i j k => a.data t j i k⟩
  | _ => ⟨a.s0, a.s3, a.s1, a.s2, fun t i j k => a.data t j k i⟩

/-- The Z/Y/X reorder heuristic of `export_h5_to_mhd.py`: the smallest
spatial extent is taken as Z and moved first. -/
def spatialReorder (a : Arr4) : Arr4 :=
  spatialMoveFront a (argmin3 a.s1 a.s2 a.s3)

/-- Per-frame spatial downsampling of the whole series
(`block_reduce_mean` applied to every frame, then stacked). -/
def downsample4 (a : Arr4) (f : ℕ) : Arr4 :=
  ⟨a.s0,
    (block_reduce_mean ⟨a.s1, a.s2, a.s3, fun _ _ _ => 0⟩ f).s0,
    (block_reduce_mean ⟨a.s1, a.s2, a.s3, fun _ _ _ => 0⟩ f).s1,
    (block_reduce_mean ⟨a.s1, a.s2, a.s3, fun _ _ _ => 0⟩ f).s2,
    fun t i j k => (block_reduce_mean ⟨a.s1, a.s2, a.s3, a.data t⟩ f).data i j k⟩

/-- The flattened series, row-major, as used by the whole-series
percentile computation. -/
def flatten4 (a : Arr4) : List ℚ :=
  (List.range a.s0).flatMap fun t =>
    (List.range a.s1).flatMap fun i =>
      (List.range a.s2).flatMap fun j =>
        (List.range a.s3).map fun k => a.data t i j k

/-- psc-mode normalization and quantization of the whole series. -/
def pscQuantize (N : ℕ) (cmin cmax : ℚ) (a : Arr4) : QVol :=
  ⟨a.s0, a.s1, a.s2, a.s3, fun t i j k =>
    quantTruncExport cmin cmax (pscVoxelExport N (fun s => a.data s i j k) t)⟩

/-- raw-mode normalization and quantization of the whole series. -/
def rawQuantize (a : Arr4) : QVol :=
  ⟨a.s0, a.s1, a.s2, a.s3, fun t i j k =>
    quantTruncExport (percentile 1 (flatten4 a)) (percentile 99 (flatten4 a))
      (a.data t i j k)⟩

/-- The data volume after transpose, spatial reorder and (conditional)
downsampling, in the order the code performs them. -/
def dsStage (cfg : ExportCfg) (d : Arr4) : Arr4 :=
  if 1 < cfg.downsample then
    downsample4 (spatialReorder (moveaxisFront d cfg.time_axis.toNat))
      cfg.downsample.toNat
  else spatialReorder (moveaxisFront d cfg.time_axis.toNat)

/-- The processing steps performed before the psc baseline validation. -/
def stepsStage (cfg : ExportCfg) : List Step :=
  if 1 < cfg.downsample then
    [Step.transposeStep, Step.reorderStep, Step.downsampleStep]
  else [Step.transposeStep, Step.reorderStep]

/-- Does the pipeline finish without an error? -/
def isOkE : Except ExpErr QVol → Bool
  | Except.ok _ => true
  | Except.error _ => false

/-- The export pipeline of `export_h5_to_mhd.py` `main` (after dataset
loading), with the trace of processing steps it performed: validate the
time axis, transpose, spatially reorder, conditionally downsample, then
(in psc mode) validate the baseline window and normalize, or (in raw
mode) normalize by the percentile window.  The clamp bounds are consumed
without validation, exactly as in the code. -/
def runExport (cfg : ExportCfg) (d : Arr4) : List Step × Except ExpErr QVol :=
  if cfg.time_axis < 0 ∨ 3 < cfg.time_axis then
    ([], Except.error (ExpErr.configError "time_axis must be 0..3"))
  else
    match cfg.mode with
    | Mode.psc =>
      if cfg.baselineN ≤ 0 ∨ ((dsStage cfg d).s0 : ℤ) < cfg.baselineN then
        (stepsStage cfg, Except.error (ExpErr.configError "baselineN must be in 1..T"))
      else
        (stepsStage cfg ++ [Step.normalizeStep, Step.writeStep],
          Except.ok (pscQuantize cfg.baselineN.toNat cfg.clampLo cfg.clampHi
            (dsStage cfg d)))
    | Mode.raw =>
      (stepsStage cfg ++ [Step.normalizeStep, Step.writeStep],
        Except.ok (rawQuantize (dsStage cfg d)))

/-- Time-mean volume of a (T,X,Y,Z) series
(`mean_vol = vol4d.mean(axis=0)` at one voxel). -/
def meanVolU (v : Arr4) (x y z : ℕ) : ℚ :=
  (∑ t in Finset.range v.s0, v.data t x y z) / v.s0

/-- `np.argwhere(mean_vol > thresh)`: the in-range coordinates whose
time-mean exceeds the threshold, in row-major order. -/
def hotCoords (v : Arr4) (thresh : ℚ) : List (ℕ × ℕ × ℕ) :=
  (List.range v.s1).flatMap fun x =>
    (List.range v.s2).flatMap fun y =>
      (List.range v.s3).filterMap fun z =>
        if thresh < meanVolU v x y z then some (x, y, z) else none

/-- Minimum of a list of naturals (0 for the empty list). -/
def listMinN : List ℕ → ℕ
  | [] => 0
  | [a] => a
  | a :: b :: rest => min a (listMinN (b :: rest))

/-- Maximum of a list of naturals (0 for the empty list). -/
def listMaxN : List ℕ → ℕ
  | [] => 0
  | [a] => a
  | a :: b :: rest => max a (listMaxN (b :: rest))

/-- Inclusive-start coordinates of the crop bounding box
(`coords.min(axis=0)`). -/
def cropX0 (v : Arr4) (thresh : ℚ) : ℕ :=
  listMinN ((hotCoords v thresh).map fun p => p.1)

def cropY0 (v : Arr4) (thresh : ℚ) : ℕ :=
  listMinN ((hotCoords v thresh).map fun p => p.2.1)

def cropZ0 (v : Arr4) (thresh : ℚ) : ℕ :=
  listMinN ((hotCoords v thresh).map fun p => p.2.2)

/-- Exclusive-end coordinates of the crop bounding box
(`coords.max(axis=0) + 1`). -/
def cropX1 (v : Arr4) (thresh : ℚ) : ℕ :=
  listMaxN ((hotCoords v thresh).map fun p => p.1) + 1

def cropY1 (v : Arr4) (thresh : ℚ) : ℕ :=
  listMaxN ((hotCoords v thresh).map fun p => p.2.1) + 1

def cropZ1 (v : Arr4) (thresh : ℚ) : ℕ :=
  listMaxN ((hotCoords v thresh).map fun p => p.2.2) + 1

/-- One frame after the crop `[x0:x1, y0:y1, z0:z1]` followed by the
2-voxel zero padding on every spatial face (`np.pad` with margin 2 and
constant 0). -/
def padCropFrame (x0 x1 y0 y1 z0 z1 : ℕ) (frame : ℕ → ℕ → ℕ → ℚ)
    (x y z : ℕ) : ℚ :=
  if 2 ≤ x ∧ x < x1 - x0 + 2 ∧ 2 ≤ y ∧ y < y1 - y0 + 2 ∧
      2 ≤ z ∧ z < z1 - z0 + 2 then
    frame (x0 + (x - 2)) (y0 + (y - 2)) (z0 + (z - 2))
  else 0

/-- `crop_and_center` of `h5_to_unity_volumes.py`: mask by the time-mean,
return the input unchanged (flag `false`) when the mask is empty, else
crop every frame to the bounding box and pad 2 zero voxels on every
spatial face (flag `true`). -/
def crop_and_center (v : Arr4) (thresh : ℚ) : Arr4 × Bool :=
  if hotCoords v thresh = [] then (v, false)
  else
    (⟨v.s0,
      cropX1 v thresh - cropX0 v thresh + 4,
      cropY1 v thresh - cropY0 v thresh + 4,
      cropZ1 v thresh - cropZ0 v thresh + 4,
      fun t x y z =>
        padCropFrame (cropX0 v thresh) (cropX1 v thresh) (cropY0 v thresh)
          (cropY1 v thresh) (cropZ0 v thresh) (cropZ1 v thresh)
          (v.data t) x y z⟩, true)

lemma EPS_pos : 0 < EPS := by norm_num [EPS]

lemma abs_guardBaseline_ge (b : ℚ) : EPS ≤ |guardBaseline b| := by
  unfold guardBaseline
  split
  · rw [abs_of_pos EPS_pos]
  · linarith [not_lt.mp (by assumption : ¬ |b| < EPS)]

lemma guardBaseline_ne_zero (b : ℚ) : guardBaseline b ≠ 0 := by
  intro h
  have := abs_guardBaseline_ge b
  rw [h, abs_zero] at this
  exact absurd this (not_le.mpr EPS_pos)

lemma guardBaseline_small {b : ℚ} (h : |b| < EPS) : guardBaseline b = EPS := by
  unfold guardBaseline
  rw [if_pos h]

lemma guardBaseline_large {b : ℚ} (h : EPS ≤ |b|) : guardBaseline b = b := by
  unfold guardBaseline
  rw [if_neg (not_lt.mpr h)]

lemma meanFirstN_const (N : ℕ) (hN : 0 < N) (c : ℚ) :
    meanFirstN N (fun _ => c) = c := by
  unfold meanFirstN
  rw [Finset.sum_const, Finset.card_range, nsmul_eq_mul]
  have hN0 : (N : ℚ) ≠ 0 := Nat.cast_ne_zero.mpr (Nat.pos_iff_ne_zero.mp hN)
  field_simp

lemma length_flatMap_range (n : ℕ) (g : ℕ → List ℚ) :
    ((List.range n).flatMap g).length = ∑ i in Finset.range n, (g i).length := by
  induction n with
  | zero => simp
  | succ m ih => rw [List.range_succ]; simp [ih, Finset.sum_range_succ]

lemma sum_flatMap_range (n : ℕ) (g : ℕ → List ℚ) :
    ((List.range n).flatMap g).sum = ∑ i in Finset.range n, (g i).sum := by
  induction n with
  | zero => simp
  | succ m ih => rw [List.range_succ]; simp [ih, Finset.sum_range_succ]

lemma sum_map_range (n : ℕ) (g : ℕ → ℚ) :
    ((List.range n).map g).sum = ∑ i in Finset.range n, g i := by
  induction n with
  | zero => simp
  | succ m ih => rw [List.range_succ]; simp [ih, Finset.sum_range_succ]

lemma blockElems_length (vol : Arr3) (f i j k : ℕ) :
    (blockElems vol f i j k).length = f ^ 3 := by
  unfold blockElems
  rw [length_flatMap_range]
  have h : ∀ a : ℕ, ((List.range f).flatMap fun b =>
      (List.range f).map fun c =>
        vol.data (i * f + a) (j * f + b) (k * f + c)).length = f * f := by
    intro a
    rw [length_flatMap_range]
    simp [Finset.sum_const]
  simp only [h, Finset.sum_const, Finset.card_range, smul_eq_mul]
  ring

lemma blockElems_sum (vol : Arr3) (f i j k : ℕ) :
    (blockElems vol f i j k).sum =
      ∑ a in Finset.range f, ∑ b in Finset.range f, ∑ c in Finset.range f,
        vol.data (i * f + a) (j * f + b) (k * f + c) := by
  unfold blockElems
  rw [sum_flatMap_range]
  refine Finset.sum_congr rfl fun a _ => ?_
  rw [sum_flatMap_range]
  refine Finset.sum_congr rfl fun b _ => ?_
  rw [sum_map_range]

lemma sortQ_sorted (l : List ℚ) : (sortQ l).Sorted (· ≤ ·) :=
  List.sorted_insertionSort _ l

lemma sortQ_length (l : List ℚ) : (sortQ l).length = l.length :=
  (List.perm_insertionSort _ l).length_eq

lemma sorted_getD_mono {s : List ℚ} (hs : s.Sorted (· ≤ ·)) {i j : ℕ}
    (hij : i ≤ j) (hj : j < s.length) : s.getD i 0 ≤ s.getD j 0 := by
  have hi : i < s.length := lt_of_le_of_lt hij hj
  rw [List.getD_eq_get _ _ hi, List.getD_eq_get _ _ hj]
  exact hs.rel_get_of_le (Fin.mk_le_mk.mpr hij)

lemma floor_le_len_sub_one {n : ℕ} (hn : 0 < n) {p : ℚ}
    (hp : p ≤ (n : ℚ) - 1) : ⌊p⌋₊ ≤ n - 1 := by
  have h1 : ((n - 1 : ℕ) : ℚ) = (n : ℚ) - 1 := by
    rw [Nat.cast_sub hn]; norm_num
  calc ⌊p⌋₊ ≤ ⌊((n - 1 : ℕ) : ℚ)⌋₊ := Nat.floor_mono (h1 ▸ hp)
    _ = n - 1 := Nat.floor_natCast _

lemma interpAt_ge {s : List ℚ} (hs : s.Sorted (· ≤ ·)) (hn : 0 < s.length)
    {pos : ℚ} (h0 : 0 ≤ pos) (hub : pos ≤ (s.length : ℚ) - 1) :
    s.getD ⌊pos⌋₊ 0 ≤ interpAt s pos := by
  have hfl : ⌊pos⌋₊ ≤ s.length - 1 := floor_le_len_sub_one hn hub
  unfold interpAt
  split
  case isTrue h =>
    have hdi : s.getD ⌊pos⌋₊ 0 ≤ s.getD (⌊pos⌋₊ + 1) 0 :=
      sorted_getD_mono hs (Nat.le_succ _) h
    have hfrac : 0 ≤ pos - (⌊pos⌋₊ : ℚ) := sub_nonneg.mpr (Nat.floor_le h0)
    have := mul_nonneg hfrac (sub_nonneg.mpr hdi)
    linarith
  case isFalse h =>
    exact sorted_getD_mono hs hfl (Nat.sub_lt hn one_pos)

lemma interpAt_le {s : List ℚ} (hs : s.Sorted (· ≤ ·))
    {pos : ℚ} (h0 : 0 ≤ pos) :
    interpAt s pos ≤ s.getD (min (⌊pos⌋₊ + 1) (s.length - 1)) 0 := by
  unfold interpAt
  split
  case isTrue h =>
    rw [min_eq_left (by omega)]
    have hdi : s.getD ⌊pos⌋₊ 0 ≤ s.getD (⌊pos⌋₊ + 1) 0 :=
      sorted_getD_mono hs (Nat.le_succ _) h
    have hfrac1 : pos - (⌊pos⌋₊ : ℚ) ≤ 1 := by
      have := Nat.lt_floor_add_one pos
      push_cast at this ⊢
      linarith
    have h1 : 0 ≤ (1 - (pos - (⌊pos⌋₊ : ℚ))) * (s.getD (⌊pos⌋₊ + 1) 0 - s.getD ⌊pos⌋₊ 0) :=
      mul_nonneg (by linarith) (sub_nonneg.mpr hdi)
    nlinarith [h1]
  case isFalse h =>
    rw [min_eq_right (by omega)]

lemma interpAt_mono {s : List ℚ} (hs : s.Sorted (· ≤ ·)) (hn : 0 < s.length)
    {p1 p2 : ℚ} (h0 : 0 ≤ p1) (h12 : p1 ≤ p2) (h2 : p2 ≤ (s.length : ℚ) - 1) :
    interpAt s p1 ≤ interpAt s p2 := by
  have hfl2 : ⌊p2⌋₊ ≤ s.length - 1 := floor_le_len_sub_one hn h2
  rcases lt_or_eq_of_le (Nat.floor_mono h12) with hlt | heq
  · calc interpAt s p1 ≤ s.getD (min (⌊p1⌋₊ + 1) (s.length - 1)) 0 :=
        interpAt_le hs h0
      _ ≤ s.getD ⌊p2⌋₊ 0 := sorted_getD_mono hs (by omega) (by omega)
      _ ≤ interpAt s p2 := interpAt_ge hs hn (le_trans h0 h12) h2
  · unfold interpAt
    rw [← heq]
    split
    case isTrue h =>
      have hdi : s.getD ⌊p1⌋₊ 0 ≤ s.getD (⌊p1⌋₊ + 1) 0 :=
        sorted_getD_mono hs (Nat.le_succ _) h
      have := mul_le_mul_of_nonneg_right (sub_le_sub_right h12 ((⌊p1⌋₊ : ℚ)))
        (sub_nonneg.mpr hdi)
      linarith
    case isFalse h => exact le_refl _

lemma percentile_mono {l : List ℚ} (hl : l ≠ []) {q1 q2 : ℚ}
    (h0 : 0 ≤ q1) (h12 : q1 ≤ q2) (h2 : q2 ≤ 100) :
    percentile q1 l ≤ percentile q2 l := by
  have hn : 0 < l.length := List.length_pos.mpr hl
  have hne : l.length ≠ 0 := Nat.pos_iff_ne_zero.mp hn
  have hn1 : (0:ℚ) ≤ (l.length : ℚ) - 1 := by
    have : (1:ℚ) ≤ (l.length : ℚ) := by exact_mod_cast hn
    linarith
  unfold percentile
  rw [if_neg hne, if_neg hne]
  apply interpAt_mono (sortQ_sorted l) (by rw [sortQ_length]; exact hn)
  · exact mul_nonneg (div_nonneg h0 (by norm_num)) hn1
  · exact mul_le_mul_of_nonneg_right
      ((div_le_div_right (by norm_num : (0:ℚ) < 100)).mpr h12) hn1
  · rw [sortQ_length]
    have hq : q2 / 100 ≤ 1 := (div_le_one (by norm_num : (0:ℚ) < 100)).mpr h2
    calc q2 / 100 * ((l.length : ℚ) - 1) ≤ 1 * ((l.length : ℚ) - 1) :=
        mul_le_mul_of_nonneg_right hq hn1
      _ = (l.length : ℚ) - 1 := one_mul _

lemma argmax4_cases (s0 s1 s2 s3 : ℕ) :
    argmax4 s0 s1 s2 s3 = 0 ∨ argmax4 s0 s1 s2 s3 = 1 ∨
    argmax4 s0 s1 s2 s3 = 2 ∨ argmax4 s0 s1 s2 s3 = 3 := by
  unfold argmax4
  split_ifs <;> simp

lemma argmax4_spec (a : Arr4) (i : ℕ) (hi : i < 4) :
    extent a i ≤ extent a (argmax4 a.s0 a.s1 a.s2 a.s3) := by
  unfold argmax4
  interval_cases i <;> split_ifs <;> simp_all [extent] <;> omega

lemma listMinN_le {l : List ℕ} {a : ℕ} (h : a ∈ l) : listMinN l ≤ a := by
  induction l with
  | nil => cases h
  | cons b t ih =>
    cases t with
    | nil =>
      rw [List.mem_singleton] at h
      simp [listMinN, h]
    | cons c t2 =>
      rw [listMinN]
      rcases List.mem_cons.mp h with rfl | h2
      · exact min_le_left _ _
      · exact le_trans (min_le_right _ _) (ih h2)

lemma listMinN_mem {l : List ℕ} (h : l ≠ []) : listMinN l ∈ l := by
  induction l with
  | nil => exact absurd rfl h
  | cons b t ih =>
    cases t with
    | nil => simp [listMinN]
    | cons c t2 =>
      rw [listMinN]
      rcases min_cases b (listMinN (c :: t2)) with ⟨heq, _⟩ | ⟨heq, _⟩
      · rw [heq]
        exact List.mem_cons_self _ _
      · rw [heq]
        exact List.mem_cons_of_mem _ (ih (by simp))

lemma le_listMaxN {l : List ℕ} {a : ℕ} (h : a ∈ l) : a ≤ listMaxN l := by
  induction l with
  | nil => cases h
  | cons b t ih =>
    cases t with
    | nil =>
      rw [List.mem_singleton] at h
      simp [listMaxN, h]
    | cons c t2 =>
      rw [listMaxN]
      rcases List.mem_cons.mp h with rfl | h2
      · exact le_max_left _ _
      · exact le_trans (ih h2) (le_max_right _ _)

lemma listMaxN_mem {l : List ℕ} (h : l ≠ []) : listMaxN l ∈ l := by
  induction l with
  | nil => exact absurd rfl h
  | cons b t ih =>
    cases t with
    | nil => simp [listMaxN]
    | cons c t2 =>
      rw [listMaxN]
      rcases max_cases b (listMaxN (c :: t2)) with ⟨heq, _⟩ | ⟨heq, _⟩
      · rw [heq]
        exact List.mem_cons_self _ _
      · rw [heq]
        exact List.mem_cons_of_mem _ (ih (by simp))

lemma mem_hotCoords {v : Arr4} {thresh : ℚ} {x y z : ℕ} :
    (x, y, z) ∈ hotCoords v thresh ↔
      x < v.s1 ∧ y < v.s2 ∧ z < v.s3 ∧ thresh < meanVolU v x y z := by
  unfold hotCoords
  constructor
  · intro h
    simp only [List.mem_flatMap, List.mem_filterMap, List.mem_range] at h
    obtain ⟨a, ha, b, hb, c, hc, hsome⟩ := h
    by_cases hcond : thresh < meanVolU v a b c
    · rw [if_pos hcond] at hsome
      simp only [Option.some.injEq, Prod.mk.injEq] at hsome
      obtain ⟨rfl, rfl, rfl⟩ := hsome
      exact ⟨ha, hb, hc, hcond⟩
    · rw [if_neg hcond] at hsome
      cases hsome
  · rintro ⟨hx, hy, hz, hcond⟩
    simp only [List.mem_flatMap, List.mem_filterMap, List.mem_range]
    exact ⟨x, hx, y, hy, z, hz, by rw [if_pos hcond]⟩

/-- Claim C1: both intensity normalizations only ever divide by a denominator
that is bounded away from zero, so no non-finite value can appear: the
export psc division (guarded baseline), the unity psc division
(`baseline + eps` with a nonnegative baseline), the export raw-mode
division (`max(hi-lo, EPS)`), and the unity percentile window (widened
when degenerate) are all well defined for every input, including a
baseline at exactly 0 or of magnitude below epsilon. -/
theorem C1_normalization_finite (N t : ℕ) (u : ℕ → ℚ) (lo hi v : ℚ)
    (l : List ℚ) (q1 q2 : ℚ) :
    (pscVoxelExportChecked N u t).isSome = true ∧
    ((∀ s, 0 ≤ u s) → (pscVoxelUnityChecked N u t).isSome = true) ∧
    (rawNormChecked lo hi v).isSome = true ∧
    (percentile_window l q1 q2).1 < (percentile_window l q1 q2).2 := by
  refine ⟨?_, ?_, ?_, ?_⟩
  · simp [pscVoxelExportChecked, safeDiv, guardBaseline_ne_zero]
  · intro hu
    have hb : 0 ≤ meanFirstN N u := by
      unfold meanFirstN
      exact div_nonneg (Finset.sum_nonneg fun s _ => hu s) (Nat.cast_nonneg N)
    have hne : meanFirstN N u + EPS ≠ 0 :=
      ne_of_gt (by linarith [EPS_pos])
    simp [pscVoxelUnityChecked, safeDiv, hne]
  · have hne : max (hi - lo) EPS ≠ 0 :=
      ne_of_gt (lt_of_lt_of_le EPS_pos (le_max_right _ _))
    simp [rawNormChecked, safeDiv, hne]
  · unfold percentile_window
    dsimp only
    split
    · dsimp only
      linarith [EPS_pos]
    · dsimp only
      exact lt_of_not_le (by assumption)

/-- Claim C1 witness: the unity psc division succeeds on the all-zero series
(baseline exactly 0). -/
theorem C1_witness :
    (∀ s : ℕ, (0:ℚ) ≤ (fun _ : ℕ => (0:ℚ)) s) ∧
    (pscVoxelUnityChecked 1 (fun _ : ℕ => (0:ℚ)) 0).isSome = true := by
  have hu : ∀ s : ℕ, (0:ℚ) ≤ (fun _ : ℕ => (0:ℚ)) s := fun _ => le_refl 0
  exact ⟨hu, (C1_normalization_finite 1 0 (fun _ => 0) 0 0 0 [] 0 0).2.1 hu⟩

/-- Claim C2 counterexample: for the near-zero negative baseline `-1/2000000`
the code substitutes positive `EPS`, while the claim requires the
substituted epsilon to carry the sign of the baseline itself (`-EPS`). -/
theorem C2_counterexample :
    guardBaseline (-(1 / 2000000)) = EPS ∧
    guardBaselineSpec (-(1 / 2000000)) = -EPS ∧
    guardBaseline (-(1 / 2000000)) ≠ guardBaselineSpec (-(1 / 2000000)) := by
  have habs : |(-(1 / 2000000) : ℚ)| = 1 / 2000000 := by
    rw [abs_neg, abs_of_pos]
    norm_num
  have hlt : |(-(1 / 2000000) : ℚ)| < EPS := by rw [habs]; norm_num [EPS]
  have h1 : guardBaseline (-(1 / 2000000)) = EPS := guardBaseline_small hlt
  have h2 : guardBaselineSpec (-(1 / 2000000)) = -EPS := by
    unfold guardBaselineSpec
    rw [if_pos hlt, if_pos (by norm_num)]
  exact ⟨h1, h2, by rw [h1, h2]; norm_num [EPS]⟩

/-- Claim C2 amended: where the baseline magnitude is below epsilon the code
substitutes positive epsilon regardless of the sign of the baseline; a
baseline of magnitude at or above epsilon is used unchanged. -/
theorem C2_amended_guard (b : ℚ) :
    (|b| < EPS → guardBaseline b = EPS) ∧ (EPS ≤ |b| → guardBaseline b = b) :=
  ⟨fun h => guardBaseline_small h, fun h => guardBaseline_large h⟩

/-- Claim C2 witness: a baseline of exactly 0 is replaced by positive epsilon. -/
theorem C2_amended_witness : |(0:ℚ)| < EPS ∧ guardBaseline 0 = EPS := by
  have h : |(0:ℚ)| < EPS := by rw [abs_zero]; exact EPS_pos
  exact ⟨h, (C2_amended_guard 0).1 h⟩

/-- Claim C4 counterexample: in the export pipeline a voxel that is constant 0
over time has baseline 0, which the guard replaces by EPS, so its PSC is
`100*(0-EPS)/EPS = -100`, not 0; after the [-5,5] clamp and rescale it
maps to 0, not the midpoint 0.5. -/
theorem C4_counterexample :
    pscVoxelExport 1 (fun _ : ℕ => (0:ℚ)) 0 = -100 ∧
    pscRescaleExport (-5) 5 (pscVoxelExport 1 (fun _ : ℕ => (0:ℚ)) 0) = 0 := by
  have hm : meanFirstN 1 (fun _ : ℕ => (0:ℚ)) = 0 := by
    simp [meanFirstN]
  have hg : guardBaseline (0:ℚ) = EPS :=
    guardBaseline_small (by rw [abs_zero]; exact EPS_pos)
  have hp : pscVoxelExport 1 (fun _ : ℕ => (0:ℚ)) 0 = -100 := by
    unfold pscVoxelExport
    rw [hm, hg]
    norm_num [EPS]
  refine ⟨hp, ?_⟩
  rw [hp]
  unfold pscRescaleExport clip
  rw [max_eq_right (by norm_num : (-100:ℚ) ≤ -5),
    min_eq_left (by norm_num : (-5:ℚ) ≤ 5)]
  norm_num

/-- Claim C4 amended: a temporally constant series gives exactly 0 PSC in the
unity variant (additive epsilon guard), which rescales to the midpoint 0.5
of its symmetric window; the export variant gives exactly 0 PSC, mapped to
0.5 by a symmetric clamp of width at least epsilon, provided the constant
value has magnitude at least epsilon (voxels below epsilon get a nonzero
PSC from the substituted baseline instead). -/
theorem C4_amended_constant_series (c : ℚ) (N t : ℕ) (pr cmax : ℚ)
    (hN : 0 < N) (hpr : 0 < pr) (hcm : EPS ≤ 2 * cmax) :
    pscVoxelUnity N (fun _ => c) t = 0 ∧
    psc01Unity pr (pscVoxelUnity N (fun _ => c) t) = 1 / 2 ∧
    (EPS ≤ |c| →
      pscVoxelExport N (fun _ => c) t = 0 ∧
      pscRescaleExport (-cmax) cmax (pscVoxelExport N (fun _ => c) t) = 1 / 2) := by
  have hm : meanFirstN N (fun _ : ℕ => c) = c := meanFirstN_const N hN c
  have hunity : pscVoxelUnity N (fun _ => c) t = 0 := by
    unfold pscVoxelUnity
    rw [hm]
    simp
  have hcm0 : 0 < cmax := by nlinarith [EPS_pos]
  refine ⟨hunity, ?_, ?_⟩
  · rw [hunity]
    unfold psc01Unity clip
    have hhalf : (0 + pr) / (2 * pr) = 1 / 2 := by
      rw [zero_add, div_eq_div_iff (by positivity) (by norm_num : (2:ℚ) ≠ 0)]
      ring
    rw [hhalf, max_eq_left (by norm_num : (0:ℚ) ≤ 1 / 2),
      min_eq_left (by norm_num : (1:ℚ) / 2 ≤ 1)]
  · intro hce
    have hpsc : pscVoxelExport N (fun _ => c) t = 0 := by
      unfold pscVoxelExport
      rw [hm, guardBaseline_large hce]
      simp
    refine ⟨hpsc, ?_⟩
    rw [hpsc]
    unfold pscRescaleExport clip
    rw [max_eq_left (by linarith : -cmax ≤ (0:ℚ)), min_eq_left hcm0.le,
      show (0:ℚ) - -cmax = cmax by ring, show cmax - -cmax = 2 * cmax by ring,
      max_eq_left hcm, div_eq_div_iff (by positivity) (by norm_num : (2:ℚ) ≠ 0)]
    ring

/-- Claim C4 witness: a series constant at 1 gives PSC exactly 0 in both
variants. -/
theorem C4_amended_witness :
    ((0:ℕ) < 1 ∧ EPS ≤ |(1:ℚ)|) ∧
    pscVoxelUnity 1 (fun _ : ℕ => (1:ℚ)) 0 = 0 ∧
    pscVoxelExport 1 (fun _ : ℕ => (1:ℚ)) 0 = 0 := by
  have h := C4_amended_constant_series 1 1 0 5 5 one_pos
    (by norm_num) (by norm_num [EPS])
  exact ⟨⟨Nat.one_pos, by norm_num [EPS]⟩, h.1, (h.2.2 (by norm_num [EPS])).1⟩

/-- Claim C5 counterexample: with the valid window `(0, 1/2000000)` (whose width
is positive but below epsilon) the truncating export quantizer maps the
value `v = vmax` to 127, not 255, because the rescale denominator is
floored to epsilon. -/
theorem C5_counterexample :
    (0:ℚ) < 1 / 2000000 ∧
    quantTruncExport 0 (1 / 2000000) (1 / 2000000) = 127 ∧
    quantTruncExport 0 (1 / 2000000) (1 / 2000000) ≠ 255 := by
  have h : quantTruncExport 0 (1 / 2000000) (1 / 2000000) = 127 := by
    unfold quantTruncExport clip
    rw [max_eq_left (by norm_num : (0:ℚ) ≤ 1 / 2000000),
      min_eq_left (le_refl ((1:ℚ) / 2000000)),
      show (1:ℚ) / 2000000 - 0 = 1 / 2000000 by ring,
      max_eq_right (by norm_num [EPS] : (1:ℚ) / 2000000 ≤ EPS),
      show (1:ℚ) / 2000000 / EPS * 255 = 255 / 2 by norm_num [EPS],
      max_eq_left (by norm_num : (0:ℚ) ≤ 255 / 2),
      min_eq_left (by norm_num : (255:ℚ) / 2 ≤ 255)]
    norm_num
  exact ⟨by norm_num, h, by rw [h]; norm_num⟩

/-- Claim C5 amended: the round-half-up quantizer (`to_uint8`) maps `v ≤ vmin`
to 0 and `v ≥ vmax` to 255 for every window with `vmin < vmax`; the
truncating export quantizer does so for every window whose width is at
least epsilon (for narrower windows the epsilon-floored denominator keeps
`v ≥ vmax` strictly below 255). -/
theorem C5_amended_quantizer_edges (v vmin vmax : ℚ) (h : vmin < vmax) :
    (v ≤ vmin → to_uint8 v vmin vmax = 0) ∧
    (vmax ≤ v → to_uint8 v vmin vmax = 255) ∧
    (EPS ≤ vmax - vmin →
      (v ≤ vmin → quantTruncExport vmin vmax v = 0) ∧
      (vmax ≤ v → quantTruncExport vmin vmax v = 255)) := by
  have hw : 0 < vmax - vmin := sub_pos.mpr h
  refine ⟨?_, ?_, ?_⟩
  · intro hv
    unfold to_uint8 clip
    have hr : (v - vmin) / (vmax - vmin) ≤ 0 :=
      div_nonpos_of_nonpos_of_nonneg (by linarith) hw.le
    rw [max_eq_right hr, min_eq_left (by norm_num : (0:ℚ) ≤ 1)]
    norm_num
  · intro hv
    unfold to_uint8 clip
    have hr : 1 ≤ (v - vmin) / (vmax - vmin) :=
      (one_le_div hw).mpr (by linarith)
    rw [max_eq_left (by linarith : (0:ℚ) ≤ (v - vmin) / (vmax - vmin)),
      min_eq_right hr]
    norm_num
  · intro hww
    constructor
    · intro hv
      unfold quantTruncExport clip
      rw [max_eq_right hv, min_eq_left h.le, sub_self, zero_div, zero_mul,
        max_self, min_eq_left (by norm_num : (0:ℚ) ≤ 255)]
      norm_num
    · intro hv
      unfold quantTruncExport clip
      rw [max_eq_left (by linarith : vmin ≤ v), min_eq_right hv,
        max_eq_left hww, div_self (ne_of_gt hw), one_mul,
        max_eq_left (by norm_num : (0:ℚ) ≤ 255), min_self]
      norm_num

/-- Claim C5 witness: with window (0,1) the round-half-up quantizer maps 2 to
255 and the truncating quantizer maps it to 255 as well. -/
theorem C5_witness :
    ((0:ℚ) < 1 ∧ (1:ℚ) ≤ 2 ∧ EPS ≤ 1 - 0) ∧
    to_uint8 2 0 1 = 255 ∧ quantTruncExport 0 1 2 = 255 := by
  have h := C5_amended_quantizer_edges 2 0 1 (by norm_num)
  exact ⟨⟨by norm_num, by norm_num, by norm_num [EPS]⟩,
    h.2.1 (by norm_num), (h.2.2 (by norm_num [EPS])).2 (by norm_num)⟩

/-- Claim C3: `block_reduce_mean` is the identity for `f ≤ 1`; when every
spatial extent is divisible by `f` each voxel of the output is the exact
arithmetic mean of its disjoint `f³` source block; otherwise the output is
the stride subsampling `output[i,j,k] = input[i*f, j*f, k*f]`. -/
theorem C3_block_reduce_mean (vol : Arr3) (f : ℕ) :
    (f ≤ 1 → block_reduce_mean vol f = vol) ∧
    (1 < f → f ∣ vol.s0 → f ∣ vol.s1 → f ∣ vol.s2 →
      (block_reduce_mean vol f).s0 = vol.s0 / f ∧
      (block_reduce_mean vol f).s1 = vol.s1 / f ∧
      (block_reduce_mean vol f).s2 = vol.s2 / f ∧
      ∀ i j k, (block_reduce_mean vol f).data i j k =
        (∑ a in Finset.range f, ∑ b in Finset.range f, ∑ c in Finset.range f,
          vol.data (i * f + a) (j * f + b) (k * f + c)) / (f : ℚ) ^ 3) ∧
    (1 < f → ¬(f ∣ vol.s0 ∧ f ∣ vol.s1 ∧ f ∣ vol.s2) →
      (block_reduce_mean vol f).s0 = (vol.s0 + f - 1) / f ∧
      (block_reduce_mean vol f).s1 = (vol.s1 + f - 1) / f ∧
      (block_reduce_mean vol f).s2 = (vol.s2 + f - 1) / f ∧
      ∀ i j k, (block_reduce_mean vol f).data i j k =
        vol.data (i * f) (j * f) (k * f)) := by
  refine ⟨fun hf => by simp [block_reduce_mean, hf], ?_, ?_⟩
  · intro hf h0 h1 h2
    have hmod : vol.s0 % f = 0 ∧ vol.s1 % f = 0 ∧ vol.s2 % f = 0 :=
      ⟨Nat.dvd_iff_mod_eq_zero.mp h0, Nat.dvd_iff_mod_eq_zero.mp h1,
        Nat.dvd_iff_mod_eq_zero.mp h2⟩
    have hnot : ¬ f ≤ 1 := not_le.mpr hf
    simp only [block_reduce_mean, if_neg hnot, if_pos hmod]
    refine ⟨trivial, trivial, trivial, fun i j k => ?_⟩
    simp only [listMean, blockElems_sum, blockElems_length]
    push_cast
    ring
  · intro hf hnd
    have hnot : ¬ f ≤ 1 := not_le.mpr hf
    have hmod : ¬ (vol.s0 % f = 0 ∧ vol.s1 % f = 0 ∧ vol.s2 % f = 0) := by
      intro h
      exact hnd ⟨Nat.dvd_iff_mod_eq_zero.mpr h.1, Nat.dvd_iff_mod_eq_zero.mpr h.2.1,
        Nat.dvd_iff_mod_eq_zero.mpr h.2.2⟩
    simp only [block_reduce_mean, if_neg hnot, if_neg hmod]
    exact ⟨trivial, trivial, trivial, fun i j k => trivial⟩

/-- Claim C3 witness: on a concrete 2×2×2 gradient volume, downsampling by 2
produces the block mean. -/
theorem C3_witness :
    ((1:ℕ) < 2 ∧ 2 ∣ 2) ∧
    (block_reduce_mean ⟨2, 2, 2, fun i j k => ((i + j + k : ℕ) : ℚ)⟩ 2).data 0 0 0 =
      (∑ a in Finset.range 2, ∑ b in Finset.range 2, ∑ c in Finset.range 2,
        ((0 * 2 + a + (0 * 2 + b) + (0 * 2 + c) : ℕ) : ℚ)) / (2 : ℚ) ^ 3 := by
  refine ⟨⟨one_lt_two, dvd_refl 2⟩, ?_⟩
  exact ((C3_block_reduce_mean ⟨2, 2, 2, fun i j k => ((i + j + k : ℕ) : ℚ)⟩ 2).2.1
    one_lt_two (dvd_refl 2) (dvd_refl 2) (dvd_refl 2)).2.2.2 0 0 0

/-- Claim C6: in raw mode the window is the 1st/99th percentile over the whole
flattened series; the window is ordered (`lo ≤ hi`), every value is mapped
to `(clip(v,lo,hi) - lo) / max(hi-lo, EPS)` (the denominator is floored to
epsilon), and every output lies in [0,1]. -/
theorem C6_raw_mode_window (l : List ℚ) (hl : l ≠ []) :
    percentile 1 l ≤ percentile 99 l ∧
    EPS ≤ max (percentile 99 l - percentile 1 l) EPS ∧
    (rawNormalizeExport l).length = l.length ∧
    (∀ i, i < l.length → (rawNormalizeExport l).getD i 0 =
      (clip (l.getD i 0) (percentile 1 l) (percentile 99 l) - percentile 1 l) /
        max (percentile 99 l - percentile 1 l) EPS) ∧
    (∀ x ∈ rawNormalizeExport l, 0 ≤ x ∧ x ≤ 1) := by
  have hlohi : percentile 1 l ≤ percentile 99 l :=
    percentile_mono hl (by norm_num) (by norm_num) (by norm_num)
  have hden : EPS ≤ max (percentile 99 l - percentile 1 l) EPS := le_max_right _ _
  have hdenpos : 0 < max (percentile 99 l - percentile 1 l) EPS :=
    lt_of_lt_of_le EPS_pos hden
  refine ⟨hlohi, hden, ?_, ?_, ?_⟩
  · simp [rawNormalizeExport]
  · intro i hi
    unfold rawNormalizeExport
    rw [List.getD_eq_getElem _ _ (by simpa using hi), List.getElem_map,
      List.getD_eq_getElem _ _ hi]
  · intro x hx
    unfold rawNormalizeExport at hx
    simp only [List.mem_map] at hx
    obtain ⟨v, _, rfl⟩ := hx
    have hc1 : percentile 1 l ≤ clip v (percentile 1 l) (percentile 99 l) :=
      le_min (le_max_right _ _) hlohi
    have hc2 : clip v (percentile 1 l) (percentile 99 l) ≤ percentile 99 l :=
      min_le_right _ _
    constructor
    · exact div_nonneg (by linarith) hdenpos.le
    · rw [div_le_one hdenpos]
      calc clip v (percentile 1 l) (percentile 99 l) - percentile 1 l
          ≤ percentile 99 l - percentile 1 l := by linarith
        _ ≤ max (percentile 99 l - percentile 1 l) EPS := le_max_left _ _

/-- Claim C6 witness: a concrete two-element series has an ordered percentile
window and in-range normalized output. -/
theorem C6_witness :
    ([(0:ℚ), 1] ≠ []) ∧ percentile 1 [(0:ℚ), 1] ≤ percentile 99 [(0:ℚ), 1] := by
  have h : ([(0:ℚ), 1] : List ℚ) ≠ [] := by simp
  exact ⟨h, (C6_raw_mode_window [(0:ℚ), 1] h).1⟩

/-- Claim C7: the ThresholdHeuristic resolver moves the last axis to the front
when the first extent is < 16 and the last > 32; leaves the array
unchanged when the first extent is ≥ 16 and the last < 16; and otherwise
moves the axis of largest extent to the front, the remaining three axes
keeping their source order, with no anatomical remapping. -/
theorem C7_axis_resolver (a : Arr4) :
    (a.s0 < 16 → 32 < a.s3 →
      (resolveAxesHeuristic a).s0 = a.s3 ∧ (resolveAxesHeuristic a).s1 = a.s0 ∧
      (resolveAxesHeuristic a).s2 = a.s1 ∧ (resolveAxesHeuristic a).s3 = a.s2 ∧
      ∀ t x y z, (resolveAxesHeuristic a).data t x y z = a.data x y z t) ∧
    (16 ≤ a.s0 → a.s3 < 16 → resolveAxesHeuristic a = a) ∧
    (¬(a.s0 < 16 ∧ 32 < a.s3) → ¬(16 ≤ a.s0 ∧ a.s3 < 16) →
      (∀ i, i < 4 → extent a i ≤ extent a (argmax4 a.s0 a.s1 a.s2 a.s3)) ∧
      (resolveAxesHeuristic a).s0 = extent a (argmax4 a.s0 a.s1 a.s2 a.s3) ∧
      (∀ i0 i1 i2 i3, (resolveAxesHeuristic a).data i0 i1 i2 i3 =
        (if argmax4 a.s0 a.s1 a.s2 a.s3 = 0 then a.data i0 i1 i2 i3
         else if argmax4 a.s0 a.s1 a.s2 a.s3 = 1 then a.data i1 i0 i2 i3
         else if argmax4 a.s0 a.s1 a.s2 a.s3 = 2 then a.data i1 i2 i0 i3
         else a.data i1 i2 i3 i0))) := by
  refine ⟨?_, ?_, ?_⟩
  · intro h0 h3
    have hc : a.s0 < 16 ∧ 32 < a.s3 := ⟨h0, h3⟩
    simp [resolveAxesHeuristic, if_pos hc, moveaxisFront]
  · intro h0 h3
    have hnc1 : ¬(a.s0 < 16 ∧ 32 < a.s3) := fun h => absurd h.1 (not_lt.mpr h0)
    simp only [resolveAxesHeuristic, if_neg hnc1, if_pos (And.intro h0 h3)]
  · intro hnc1 hnc2
    refine ⟨fun i hi => argmax4_spec a i hi, ?_, ?_⟩
    · simp only [resolveAxesHeuristic, if_neg hnc1, if_neg hnc2]
      rcases argmax4_cases a.s0 a.s1 a.s2 a.s3 with h | h | h | h <;>
        simp [h, moveaxisFront, extent]
    · intro i0 i1 i2 i3
      simp only [resolveAxesHeuristic, if_neg hnc1, if_neg hnc2]
      rcases argmax4_cases a.s0 a.s1 a.s2 a.s3 with h | h | h | h <;>
        simp [h, moveaxisFront]

/-- Claim C7 witness: shape (8, 9, 10, 40) takes the first branch, moving the
last axis to the front. -/
theorem C7_witness :
    ((8:ℕ) < 16 ∧ (32:ℕ) < 40) ∧
    (resolveAxesHeuristic ⟨8, 9, 10, 40, fun i _ _ _ => (i : ℚ)⟩).data 1 2 3 4 =
      (⟨8, 9, 10, 40, fun i _ _ _ => (i : ℚ)⟩ : Arr4).data 2 3 4 1 := by
  refine ⟨⟨by norm_num, by norm_num⟩, ?_⟩
  exact ((C7_axis_resolver ⟨8, 9, 10, 40, fun i _ _ _ => (i : ℚ)⟩).1
    (by norm_num) (by norm_num)).2.2.2.2 1 2 3 4

/-- Claim C8 counterexample: a configuration whose clamp is invalid
(low = 5 ≥ high = -5) but otherwise valid runs to completion with no
error: the clamp is never validated, contradicting the claim that an
invalid clamp fails with `ConfigurationError`. -/
theorem C8_counterexample :
    (⟨0, Mode.psc, 1, 5, -5, 1⟩ : ExportCfg).clampHi ≤
      (⟨0, Mode.psc, 1, 5, -5, 1⟩ : ExportCfg).clampLo ∧
    isOkE (runExport ⟨0, Mode.psc, 1, 5, -5, 1⟩
      ⟨1, 1, 1, 1, fun _ _ _ _ => 0⟩).2 = true := by
  constructor
  · norm_num
  · rfl

/-- Claim C8 amended: an invalid time-axis index fails before any processing
step; in psc mode an invalid baseline window fails with an error — but
only after the downsampling step has already been performed; the clamp is
never validated at all: a configuration with clamp low ≥ high runs to
completion. -/
theorem C8_amended_validation (cfg : ExportCfg) (d : Arr4) :
    (cfg.time_axis < 0 ∨ 3 < cfg.time_axis →
      runExport cfg d =
        ([], Except.error (ExpErr.configError "time_axis must be 0..3"))) ∧
    (¬(cfg.time_axis < 0 ∨ 3 < cfg.time_axis) → cfg.mode = Mode.psc →
      1 < cfg.downsample →
      (cfg.baselineN ≤ 0 ∨ ((dsStage cfg d).s0 : ℤ) < cfg.baselineN) →
      (runExport cfg d).2 =
        Except.error (ExpErr.configError "baselineN must be in 1..T") ∧
      Step.downsampleStep ∈ (runExport cfg d).1) ∧
    (¬(cfg.time_axis < 0 ∨ 3 < cfg.time_axis) → cfg.mode = Mode.psc →
      ¬(cfg.baselineN ≤ 0 ∨ ((dsStage cfg d).s0 : ℤ) < cfg.baselineN) →
      cfg.clampHi ≤ cfg.clampLo →
      isOkE (runExport cfg d).2 = true) := by
  refine ⟨?_, ?_, ?_⟩
  · intro h
    simp only [runExport, if_pos h]
  · intro h hm hd hb
    simp only [runExport, hm, if_neg h, if_pos hb]
    exact ⟨trivial, by simp [stepsStage, hd]⟩
  · intro h hm hb _
    simp only [runExport, hm, if_neg h, if_neg hb]
    rfl

/-- Claim C8 witness: time-axis index 4 is rejected before any processing. -/
theorem C8_witness :
    (((4:ℤ) < 0 ∨ (3:ℤ) < 4)) ∧
    runExport ⟨4, Mode.psc, 1, -5, 5, 2⟩ ⟨1, 1, 1, 1, fun _ _ _ _ => 0⟩ =
      ([], Except.error (ExpErr.configError "time_axis must be 0..3")) := by
  have h : ((4:ℤ) < 0 ∨ (3:ℤ) < 4) := Or.inr (by norm_num)
  exact ⟨h, (C8_amended_validation ⟨4, Mode.psc, 1, -5, 5, 2⟩
    ⟨1, 1, 1, 1, fun _ _ _ _ => 0⟩).1 h⟩

/-- Claim C9: with an all-below-threshold mask `crop_and_center` is the
identity and records `cropped = false`; with at least one hot voxel it
records `cropped = true`, the crop box (inclusive start, exclusive end)
encloses every hot voxel and is minimal (every bound is attained by a hot
voxel), each output spatial extent equals the bounding-box extent plus
twice the margin 2, and every output voxel is the 2-voxel zero-padded
crop of the corresponding source frame. -/
theorem C9_crop_and_center (v : Arr4) (thresh : ℚ) :
    ((∀ x y z, x < v.s1 → y < v.s2 → z < v.s3 → ¬ thresh < meanVolU v x y z) →
      crop_and_center v thresh = (v, false)) ∧
    (∀ xh yh zh, xh < v.s1 → yh < v.s2 → zh < v.s3 →
      thresh < meanVolU v xh yh zh →
      (crop_and_center v thresh).2 = true ∧
      (∀ x y z, x < v.s1 → y < v.s2 → z < v.s3 → thresh < meanVolU v x y z →
        cropX0 v thresh ≤ x ∧ x < cropX1 v thresh ∧
        cropY0 v thresh ≤ y ∧ y < cropY1 v thresh ∧
        cropZ0 v thresh ≤ z ∧ z < cropZ1 v thresh) ∧
      (∃ p ∈ hotCoords v thresh, p.1 = cropX0 v thresh) ∧
      (∃ p ∈ hotCoords v thresh, p.1 + 1 = cropX1 v thresh) ∧
      (∃ p ∈ hotCoords v thresh, p.2.1 = cropY0 v thresh) ∧
      (∃ p ∈ hotCoords v thresh, p.2.1 + 1 = cropY1 v thresh) ∧
      (∃ p ∈ hotCoords v thresh, p.2.2 = cropZ0 v thresh) ∧
      (∃ p ∈ hotCoords v thresh, p.2.2 + 1 = cropZ1 v thresh) ∧
      (crop_and_center v thresh).1.s1 = cropX1 v thresh - cropX0 v thresh + 4 ∧
      (crop_and_center v thresh).1.s2 = cropY1 v thresh - cropY0 v thresh + 4 ∧
      (crop_and_center v thresh).1.s3 = cropZ1 v thresh - cropZ0 v thresh + 4 ∧
      (∀ t x y z, (crop_and_center v thresh).1.data t x y z =
        if 2 ≤ x ∧ x < cropX1 v thresh - cropX0 v thresh + 2 ∧
            2 ≤ y ∧ y < cropY1 v thresh - cropY0 v thresh + 2 ∧
            2 ≤ z ∧ z < cropZ1 v thresh - cropZ0 v thresh + 2 then
          v.data t (cropX0 v thresh + (x - 2)) (cropY0 v thresh + (y - 2))
            (cropZ0 v thresh + (z - 2))
        else 0)) := by
  constructor
  · intro hno
    have hemp : hotCoords v thresh = [] := by
      rw [List.eq_nil_iff_forall_not_mem]
      rintro ⟨x, y, z⟩ hp
      rw [mem_hotCoords] at hp
      exact hno x y z hp.1 hp.2.1 hp.2.2.1 hp.2.2.2
    unfold crop_and_center
    rw [if_pos hemp]
  · intro xh yh zh h1 h2 h3 h4
    have hmem : (xh, yh, zh) ∈ hotCoords v thresh :=
      mem_hotCoords.mpr ⟨h1, h2, h3, h4⟩
    have hne : hotCoords v thresh ≠ [] := List.ne_nil_of_mem hmem
    have hxs : ((hotCoords v thresh).map fun p => p.1) ≠ [] := by
      simpa using hne
    have hys : ((hotCoords v thresh).map fun p => p.2.1) ≠ [] := by
      simpa using hne
    have hzs : ((hotCoords v thresh).map fun p => p.2.2) ≠ [] := by
      simpa using hne
    refine ⟨?_, ?_, ?_, ?_, ?_, ?_, ?_, ?_, ?_, ?_, ?_, ?_⟩
    · unfold crop_and_center
      rw [if_neg hne]
    · intro x y z hx hy hz hh
      have hm : (x, y, z) ∈ hotCoords v thresh :=
        mem_hotCoords.mpr ⟨hx, hy, hz, hh⟩
      refine ⟨listMinN_le (List.mem_map_of_mem _ hm),
        Nat.lt_succ_of_le (le_listMaxN (List.mem_map_of_mem _ hm)),
        listMinN_le (List.mem_map_of_mem _ hm),
        Nat.lt_succ_of_le (le_listMaxN (List.mem_map_of_mem _ hm)),
        listMinN_le (List.mem_map_of_mem _ hm),
        Nat.lt_succ_of_le (le_listMaxN (List.mem_map_of_mem _ hm))⟩
    · obtain ⟨p, hp, hpe⟩ := List.mem_map.mp (listMinN_mem hxs)
      exact ⟨p, hp, hpe⟩
    · obtain ⟨p, hp, hpe⟩ := List.mem_map.mp (listMaxN_mem hxs)
      exact ⟨p, hp, by rw [hpe]; rfl⟩
    · obtain ⟨p, hp, hpe⟩ := List.mem_map.mp (listMinN_mem hys)
      exact ⟨p, hp, hpe⟩
    · obtain ⟨p, hp, hpe⟩ := List.mem_map.mp (listMaxN_mem hys)
      exact ⟨p, hp, by rw [hpe]; rfl⟩
    · obtain ⟨p, hp, hpe⟩ := List.mem_map.mp (listMinN_mem hzs)
      exact ⟨p, hp, hpe⟩
    · obtain ⟨p, hp, hpe⟩ := List.mem_map.mp (listMaxN_mem hzs)
      exact ⟨p, hp, by rw [hpe]; rfl⟩
    · unfold crop_and_center
      rw [if_neg hne]
    · unfold crop_and_center
      rw [if_neg hne]
    · unfold crop_and_center
      rw [if_neg hne]
    · intro t x y z
      unfold crop_and_center
      rw [if_neg hne]
      rfl

/-- Claim C9 witness: a 1×1×1×1 volume of ones with threshold 0 has a hot voxel
and the crop flag is set. -/
theorem C9_witness :
    ((0:ℕ) < 1 ∧ (0:ℚ) < meanVolU ⟨1, 1, 1, 1, fun _ _ _ _ => 1⟩ 0 0 0) ∧
    (crop_and_center ⟨1, 1, 1, 1, fun _ _ _ _ => 1⟩ 0).2 = true := by
  have hm : (0:ℚ) < meanVolU ⟨1, 1, 1, 1, fun _ _ _ _ => 1⟩ 0 0 0 := by
    norm_num [meanVolU]
  exact ⟨⟨Nat.one_pos, hm⟩,
    ((C9_crop_and_center ⟨1, 1, 1, 1, fun _ _ _ _ => 1⟩ 0).2 0 0 0
      Nat.one_pos Nat.one_pos Nat.one_pos hm).1⟩

/-- Claim C10: `crop_and_center` never changes the time extent; when it does
not crop it returns the input unchanged, and when it crops, output frame
`t` is obtained from input frame `t` alone by the one crop box and margin
applied uniformly to every frame. -/
theorem C10_crop_frames (v : Arr4) (thresh : ℚ) :
    (crop_and_center v thresh).1.s0 = v.s0 ∧
    ((crop_and_center v thresh).2 = false → (crop_and_center v thresh).1 = v) ∧
    ((crop_and_center v thresh).2 = true →
      ∀ t x y z, (crop_and_center v thresh).1.data t x y z =
        padCropFrame (cropX0 v thresh) (cropX1 v thresh) (cropY0 v thresh)
          (cropY1 v thresh) (cropZ0 v thresh) (cropZ1 v thresh)
          (v.data t) x y z) := by
  unfold crop_and_center
  split
  · exact ⟨rfl, fun _ => rfl, fun h => absurd h (by simp)⟩
  · exact ⟨rfl, fun h => absurd h (by simp), fun _ t x y z => rfl⟩

/-- Claim C10 witness: on a volume with an empty mask the series is returned
unchanged (and the time extent in particular is preserved). -/
theorem C10_witness :
    (crop_and_center ⟨1, 1, 1, 1, fun _ _ _ _ => 0⟩ 0).2 = false ∧
    (crop_and_center ⟨1, 1, 1, 1, fun _ _ _ _ => 0⟩ 0).1 =
      ⟨1, 1, 1, 1, fun _ _ _ _ => 0⟩ := by
  have hh : hotCoords ⟨1, 1, 1, 1, fun _ _ _ _ => 0⟩ (0:ℚ) = [] := by
    simp [hotCoords, meanVolU]
  have hf : (crop_and_center ⟨1, 1, 1, 1, fun _ _ _ _ => 0⟩ 0).2 = false := by
    simp [crop_and_center, hh]
  exact ⟨hf, (C10_crop_frames ⟨1, 1, 1, 1, fun _ _ _ _ => 0⟩ 0).2.1 hf⟩

end H5Export
